import Mathlib

/-!
A shallow embedding of the server-side logic of the rentbasket_basecamp
project-management application (Express + Mongoose/Supabase), together with
proofs about its data model and route handlers.

Conventions used throughout:
* JavaScript strings are embedded as values of type List Char.
* Database object ids are embedded as natural numbers.
* Timestamps (Date values) are embedded as natural numbers.
* A JavaScript value that may be undefined or null is embedded as an Option.
* Each Express route handler is embedded as a pure function from the relevant
  store state and request data to the updated store state, an HTTP response
  and the list of socket events it emits.
-/

namespace Basecamp

/-! ### Strings and character classes -/

/-- ASCII lowercasing of one character; the effect of the JavaScript
String.prototype.toLowerCase call on the ASCII range used by the code. -/
def asciiLower (c : Char) : Char :=
  if 'A' ≤ c ∧ c ≤ 'Z' then Char.ofNat (c.toNat + 32) else c

/-- Lowercase a whole string. -/
def lowerStr (s : List Char) : List Char := s.map asciiLower

/-- The JavaScript regular-expression character class backslash-w:
ASCII letters, digits and underscore. -/
def isWordChar (c : Char) : Bool := c.isAlpha || c.isDigit || c = '_'

/-- Boolean test that a list starts with the given pattern. -/
def leadsWith : List Char → List Char → Bool
  | [], _ => true
  | _ :: _, [] => false
  | a :: as, b :: bs => a = b && leadsWith as bs

/-- Boolean substring test; the JavaScript String.prototype.includes. -/
def containsSub (needle : List Char) : List Char → Bool
  | [] => needle.isEmpty
  | c :: rest => leadsWith needle (c :: rest) || containsSub needle rest

/-! ### Mention parsing (src/server/models/Message.js, Message.parseMentions)

The source scans the message content with the global regular expression
matching an at-sign followed by one or more word characters, capturing the
word-character run.  scanAux walks the character list carrying the state of
that scan: none when not inside a candidate match, some acc when an at-sign
has been seen and acc holds the (reversed) word characters read so far. -/

def scanAux : Option (List Char) → List Char → List (List Char)
  | none, [] => []
  | some acc, [] => if acc = [] then [] else [acc.reverse]
  | none, c :: rest =>
      if c = '@' then scanAux (some []) rest else scanAux none rest
  | some acc, c :: rest =>
      if isWordChar c then scanAux (some (c :: acc)) rest
      else if acc = [] then
        (if c = '@' then scanAux (some []) rest else scanAux none rest)
      else
        acc.reverse :: (if c = '@' then scanAux (some []) rest else scanAux none rest)

/-- The list of tokens captured by the global regular expression, in order of
occurrence in the content. -/
def scanTokens (content : List Char) : List (List Char) := scanAux none content

/-- An active user as consumed by the mention parser: object id, display name
and email address. -/
structure PMUser where
  uid : Nat
  name : List Char
  email : List Char
deriving DecidableEq, Repr

/-- The local part of an email address: everything before the first at-sign
(JavaScript email.split on the at-sign, index 0). -/
def emailLocal (email : List Char) : List Char := email.takeWhile (fun c => c ≠ '@')

/-- The match test the source applies to each user for a lowercased token:
case-insensitive substring of the display name, or of the email local part. -/
def userMatches (tok : List Char) (u : PMUser) : Bool :=
  containsSub tok (lowerStr u.name) || containsSub tok (emailLocal (lowerStr u.email))

/-- The accumulator loop of Message.parseMentions: for each token (lowercased),
find the first matching user in the active-user list and push its id unless it
is already present. -/
def parseMentionsGo (users : List PMUser) : List (List Char) → List Nat → List Nat
  | [], acc => acc
  | tok :: rest, acc =>
      match users.find? (userMatches (lowerStr tok)) with
      | some u => if acc.contains u.uid then parseMentionsGo users rest acc
                  else parseMentionsGo users rest (acc ++ [u.uid])
      | none => parseMentionsGo users rest acc

/-- Message.parseMentions from src/server/models/Message.js (the Supabase
variant in models/supabase/Message.js is textually identical up to the id
field name). -/
def parseMentions (content : List Char) (users : List PMUser) : List Nat :=
  parseMentionsGo users (scanTokens content) []

/-! Specification-level descriptions of the mention parser, used to compare
the code against the words of the spec. -/

/-- Modelled from the spec: resolution of one token as the claim states it,
where a token yields a user id only when exactly one active user matches it;
an ambiguous token (more than one match) or an unmatched token yields
nothing. -/
def resolveUnique (users : List PMUser) (tok : List Char) : Option Nat :=
  match users.filter (userMatches (lowerStr tok)) with
  | [u] => some u.uid
  | _ => none

/-- Resolution of one token as the code actually behaves: the first matching
user in active-user list order, if any. -/
def resolveFirst (users : List PMUser) (tok : List Char) : Option Nat :=
  (users.find? (userMatches (lowerStr tok))).map PMUser.uid

/-- Order-preserving deduplication keeping first occurrences. -/
def dedupFirstGo : List Nat → List Nat → List Nat
  | [], _ => []
  | x :: xs, seen => if seen.contains x then dedupFirstGo xs seen
                     else x :: dedupFirstGo xs (x :: seen)

/-- Order-preserving deduplication of a list of ids. -/
def dedupFirst (l : List Nat) : List Nat := dedupFirstGo l []

/-- Modelled from the spec: the whole parser as the claim describes it
(ambiguous tokens silently dropped). -/
def parseMentionsClaimed (content : List Char) (users : List PMUser) : List Nat :=
  dedupFirst ((scanTokens content).filterMap (resolveUnique users))

/-- The whole parser as the code behaves: first match wins. -/
def parseMentionsFirst (content : List Char) (users : List PMUser) : List Nat :=
  dedupFirst ((scanTokens content).filterMap (resolveFirst users))

/-! ### Task data model (src/server/models/Task.js and models/supabase/Task.js) -/

/-- Task status enum: new, in_progress, done. -/
inductive TStat where
  | statNew
  | inProgress
  | done
deriving DecidableEq, Repr

/-- Task priority enum: low, medium, high. -/
inductive TPrio where
  | low
  | medium
  | high
deriving DecidableEq, Repr

/-- A task document / row. -/
structure MTask where
  project : Nat
  title : List Char
  description : List Char
  status : TStat
  priority : TPrio
  assignedTo : Option Nat
  dueDate : Option Nat
  completedAt : Option Nat
  createdBy : Nat
  order : Nat
  tags : List (List Char)
deriving DecidableEq, Repr

/-- The Mongoose pre-save hook of Task.js (lines 67-76): when the status path
was marked modified, entering done with no completion timestamp stamps one,
and any non-done status clears it. -/
def taskPreSave (statusModified : Bool) (now : Nat) (t : MTask) : MTask :=
  if statusModified then
    if t.status = TStat.done ∧ t.completedAt = none then { t with completedAt := some now }
    else if t.status ≠ TStat.done then { t with completedAt := none }
    else t
  else t

/-- Body of POST /api/tasks after express-validator: optional fields are
absent or valid enum values. -/
structure CreateTaskReq where
  projectId : Nat
  title : List Char
  description : Option (List Char)
  status : Option TStat
  priority : Option TPrio
  assignedTo : Option Nat
  dueDate : Option Nat
  taskOrder : Option Nat
  tags : Option (List (List Char))
deriving DecidableEq, Repr

/-- The task document built by POST /api/tasks (tasks.js lines 176-185) and
then saved, which runs the pre-save hook with the status path modified (a new
document has all set paths modified). -/
def mongoCreateTask (req : CreateTaskReq) (actor : Nat) (now : Nat) : MTask :=
  taskPreSave true now
    { project := req.projectId
      title := req.title
      description := req.description.getD []
      status := req.status.getD TStat.statNew
      priority := req.priority.getD TPrio.medium
      assignedTo := req.assignedTo
      dueDate := req.dueDate
      completedAt := none
      createdBy := actor
      order := req.taskOrder.getD 0
      tags := req.tags.getD [] }

/-- Body of PUT /api/tasks/:id after express-validator.  An outer none means
the field was absent (undefined); for assignedTo and dueDate an inner none
models an explicit falsy value which the handler turns into null. -/
structure UpdateTaskReq where
  title : Option (List Char)
  description : Option (List Char)
  status : Option TStat
  priority : Option TPrio
  assignedTo : Option (Option Nat)
  dueDate : Option (Option Nat)
  taskOrder : Option Nat
  tags : Option (List (List Char))
deriving DecidableEq, Repr

/-- Field assignments of PUT /api/tasks/:id (tasks.js lines 259-264): title,
status and priority are guarded by truthiness, description, assignedTo and
dueDate by an undefined check. -/
def applyTaskUpdates (r : UpdateTaskReq) (t : MTask) : MTask :=
  { t with
    title := match r.title with
      | some s => if s = [] then t.title else s
      | none => t.title,
    description := r.description.getD t.description,
    status := r.status.getD t.status,
    priority := r.priority.getD t.priority,
    assignedTo := match r.assignedTo with
      | some a => a
      | none => t.assignedTo,
    dueDate := match r.dueDate with
      | some d => d
      | none => t.dueDate }

/-- The update path of PUT /api/tasks/:id: apply the supplied fields, then
save, which runs the pre-save hook.  Mongoose marks the status path modified
exactly when an assignment changed its value. -/
def mongoUpdateTask (r : UpdateTaskReq) (t : MTask) (now : Nat) : MTask :=
  let t2 := applyTaskUpdates r t
  taskPreSave (decide (t2.status ≠ t.status)) now t2

/-- Task.create of models/supabase/Task.js (lines 98-125): completed_at is
stamped at insert time exactly when the inserted status is done. -/
def supaCreateTask (req : CreateTaskReq) (creator : Nat) (now : Nat) : MTask :=
  let st := req.status.getD TStat.statNew
  { project := req.projectId
    title := req.title
    description := req.description.getD []
    status := st
    priority := req.priority.getD TPrio.medium
    assignedTo := req.assignedTo
    dueDate := req.dueDate
    completedAt := if st = TStat.done then some now else none
    createdBy := creator
    order := req.taskOrder.getD 0
    tags := req.tags.getD [] }

/-- Task.update of models/supabase/Task.js (lines 130-162): every supplied
field is applied; when a status is supplied, entering done from a non-done
current status stamps completed_at and any non-done status clears it. -/
def supaUpdateTask (upd : UpdateTaskReq) (cur : MTask) (now : Nat) : MTask :=
  { cur with
    title := upd.title.getD cur.title,
    description := upd.description.getD cur.description,
    status := upd.status.getD cur.status,
    completedAt := match upd.status with
      | some s =>
          if s = TStat.done ∧ cur.status ≠ TStat.done then some now
          else if s ≠ TStat.done then none
          else cur.completedAt
      | none => cur.completedAt,
    priority := upd.priority.getD cur.priority,
    assignedTo := match upd.assignedTo with
      | some a => a
      | none => cur.assignedTo,
    dueDate := match upd.dueDate with
      | some d => d
      | none => cur.dueDate,
    order := upd.taskOrder.getD cur.order,
    tags := upd.tags.getD cur.tags }

/-- The spec invariant: status is done iff the completion timestamp is
non-null. -/
def taskInv (t : MTask) : Prop := t.status = TStat.done ↔ t.completedAt ≠ none

/-! ### Notifications, socket events, HTTP responses -/

/-- The notification type enum of src/server/models/Notification.js. -/
inductive NType where
  | taskAssigned
  | taskCompleted
  | taskDueSoon
  | taskOverdue
  | messageMention
  | projectCreated
  | projectMemberAdded
  | fileUploaded
  | commentAdded
deriving DecidableEq, Repr

/-- A notification row as created by Notification.createNotification. -/
structure Notif where
  user : Nat
  ntype : NType
  ntitle : List Char
  nmessage : List Char
  project : Option Nat
  task : Option Nat
  triggeredBy : Option Nat
deriving DecidableEq, Repr

/-- Names of the socket events the route handlers emit. -/
inductive SockEvent where
  | newMessage
  | messageUpdated
  | messageDeleted
  | notification
  | taskCompleted
deriving DecidableEq, Repr

/-- A realtime emit addressed to a project room or to a user room. -/
inductive Emit where
  | projectRoom (pid : Nat) (ev : SockEvent)
  | userRoom (uid : Nat) (ev : SockEvent)
deriving DecidableEq, Repr

/-- Whether an emit is addressed to a project room. -/
def Emit.isProjectRoom : Emit → Bool
  | Emit.projectRoom _ _ => true
  | Emit.userRoom _ _ => false

/-- An HTTP response, reduced to the status code and the success flag of the
JSON envelope. -/
structure HResp where
  status : Nat
  success : Bool
deriving DecidableEq, Repr

/-! ### Task routes (src/server/routes/tasks.js) -/

/-- Store state seen by the task routes: existing projects (id and name),
task documents keyed by id, notification rows. -/
structure TaskStore where
  projects : List (Nat × List Char)
  tasks : List (Nat × MTask)
  notifs : List Notif
deriving DecidableEq, Repr

/-- The task_assigned notification created by POST /api/tasks
(tasks.js lines 192-200). -/
def taskAssignedNotif (u actor pid tid : Nat) (title pname : List Char) : Notif :=
  { user := u
    ntype := NType.taskAssigned
    ntitle := "New Task Assigned".toList
    nmessage := "You\u0027ve been assigned to \"".toList ++ title ++ "\" in ".toList ++ pname
    project := some pid
    task := some tid
    triggeredBy := some actor }

/-- POST /api/tasks (tasks.js lines 147-223).  notifOk models whether the
call to Notification.createNotification succeeds; when it throws, control
jumps to the catch block, next(error) reaches the top-level error handler
(server index) and the handler responds 500 without rolling the created task
back.  The emit to the assignee user room happens only after a successful
notification insert. -/
def postTask (st : TaskStore) (actor : Nat) (req : CreateTaskReq)
    (now taskId : Nat) (notifOk : Bool) : TaskStore × HResp × List Emit :=
  match st.projects.find? (fun p => p.1 = req.projectId) with
  | none => (st, ⟨404, false⟩, [])
  | some proj =>
      let task := mongoCreateTask req actor now
      let st1 := { st with tasks := st.tasks ++ [(taskId, task)] }
      match req.assignedTo with
      | some u =>
          if u ≠ actor then
            if notifOk then
              ({ st1 with notifs :=
                  st1.notifs ++ [taskAssignedNotif u actor req.projectId taskId req.title proj.2] },
                ⟨201, true⟩, [Emit.userRoom u SockEvent.notification])
            else (st1, ⟨500, false⟩, [])
          else (st1, ⟨201, true⟩, [])
      | none => (st1, ⟨201, true⟩, [])

/-- The task_assigned notification created by PUT /api/tasks/:id
(tasks.js lines 272-280). -/
def taskReassignedNotif (u actor pid tid : Nat) (title : List Char) : Notif :=
  { user := u
    ntype := NType.taskAssigned
    ntitle := "Task Assigned".toList
    nmessage := "You\u0027ve been assigned to \"".toList ++ title ++ "\"".toList
    project := some pid
    task := some tid
    triggeredBy := some actor }

/-- PUT /api/tasks/:id (tasks.js lines 228-304): look the task up, apply the
supplied fields and save, create a task_assigned notification when the
assignee changed to a user other than the actor, and emit task_completed to
the project room exactly when the supplied status is done and the previous
status was not. -/
def putTask (st : TaskStore) (actor taskId : Nat) (r : UpdateTaskReq)
    (now : Nat) : TaskStore × HResp × List Emit :=
  match st.tasks.find? (fun p => p.1 = taskId) with
  | none => (st, ⟨404, false⟩, [])
  | some e =>
      let t := e.2
      let prevAssignee := t.assignedTo
      let prevStatus := t.status
      let t2 := mongoUpdateTask r t now
      let st1 := { st with
        tasks := st.tasks.map (fun p => if p.1 = taskId then (p.1, t2) else p) }
      let st2 := match r.assignedTo with
        | some (some u) =>
            if some u ≠ prevAssignee ∧ u ≠ actor then
              { st1 with notifs := st1.notifs ++ [taskReassignedNotif u actor t2.project taskId t2.title] }
            else st1
        | _ => st1
      let emits := if r.status = some TStat.done ∧ prevStatus ≠ TStat.done
        then [Emit.projectRoom t.project SockEvent.taskCompleted] else []
      (st2, ⟨200, true⟩, emits)

/-! ### Message data model and routes (src/server/models/Message.js,
src/server/routes/messages.js) -/

/-- A message document / row. -/
structure Msg where
  project : Nat
  sender : Nat
  content : List Char
  mentions : List Nat
  isEdited : Bool
  editedAt : Option Nat
  isDeleted : Bool
  createdAt : Nat
deriving DecidableEq, Repr

/-- Sort relation putting larger keys first (the Mongoose sort on createdAt
descending). -/
def descBy {α : Type} (key : α → Nat) (a b : α) : Prop := key b ≤ key a

instance {α : Type} (key : α → Nat) : DecidableRel (descBy key) :=
  fun a b => inferInstanceAs (Decidable (key b ≤ key a))

instance {α : Type} (key : α → Nat) : IsTotal α (descBy key) :=
  ⟨fun a b => (Nat.le_total (key b) (key a)).imp id id⟩

instance {α : Type} (key : α → Nat) : IsTrans α (descBy key) :=
  ⟨fun _ _ _ h1 h2 => Nat.le_trans h2 h1⟩

/-- Message.getProjectMessages (Message.js lines 72-96): filter the project
messages that are not soft-deleted, sort newest first, skip
(page - 1) * limit, take limit, then reverse into chronological order. -/
def getProjectMessages (msgs : List (Nat × Msg)) (pid page limit : Nat) :
    List (Nat × Msg) :=
  let skip := (page - 1) * limit
  ((((msgs.filter (fun m => m.2.project = pid ∧ m.2.isDeleted = false)).insertionSort
      (descBy (fun m => m.2.createdAt))).drop skip).take limit).reverse

/-- Store state seen by the message routes: projects, the active users loaded
for mention parsing, messages keyed by id, notification rows. -/
structure MsgStore where
  projects : List (Nat × List Char)
  users : List PMUser
  msgs : List (Nat × Msg)
  notifs : List Notif
deriving DecidableEq, Repr

/-- The message_mention notification created by POST /api/messages
(messages.js lines 109-116). -/
def mentionNotif (u actor pid : Nat) (actorName pname : List Char) : Notif :=
  { user := u
    ntype := NType.messageMention
    ntitle := "You were mentioned".toList
    nmessage := actorName ++ " mentioned you in ".toList ++ pname
    project := some pid
    task := none
    triggeredBy := some actor }

/-- POST /api/messages (messages.js lines 55-132): validate content, check
the project, parse mentions against the active users, create the message,
emit new_message to the project room, then run the notification loop: one
awaited Notification.createNotification per mentioned user other than the
sender, each followed by a user-room emit.  failAt models which of those
inserts (0-based, in mention order) throws, if any: the iterations before it
have already persisted their rows and sent their emits, the failing
iteration writes nothing, the loop aborts and the top-level error handler
responds 500.  An index at or past the end of the loop means no insert
fails.  The message itself and the new_message emit have already happened in
every case. -/
def postMessage (st : MsgStore) (actor : Nat) (actorName : List Char)
    (projectId : Nat) (content : List Char) (now msgId : Nat)
    (failAt : Option Nat) : MsgStore × HResp × List Emit :=
  if content = [] then (st, ⟨400, false⟩, [])
  else
    match st.projects.find? (fun p => p.1 = projectId) with
    | none => (st, ⟨404, false⟩, [])
    | some proj =>
        let mentions := parseMentions content st.users
        let msg : Msg :=
          { project := projectId, sender := actor, content := content,
            mentions := mentions, isEdited := false, editedAt := none,
            isDeleted := false, createdAt := now }
        let st1 := { st with msgs := st.msgs ++ [(msgId, msg)] }
        let others := mentions.filter (fun u => u ≠ actor)
        let mkNotif := fun (u : Nat) => mentionNotif u actor projectId actorName proj.2
        let mkEmit := fun (u : Nat) => Emit.userRoom u SockEvent.notification
        match failAt with
        | none =>
            ({ st1 with notifs := st1.notifs ++ others.map mkNotif },
              ⟨201, true⟩,
              Emit.projectRoom projectId SockEvent.newMessage :: others.map mkEmit)
        | some k =>
            if others.length ≤ k then
              ({ st1 with notifs := st1.notifs ++ others.map mkNotif },
                ⟨201, true⟩,
                Emit.projectRoom projectId SockEvent.newMessage :: others.map mkEmit)
            else
              ({ st1 with notifs := st1.notifs ++ (others.take k).map mkNotif },
                ⟨500, false⟩,
                Emit.projectRoom projectId SockEvent.newMessage :: (others.take k).map mkEmit)

/-- PUT /api/messages/:id (messages.js lines 137-199): validate content, look
the message up, reject a non-sender with 403, otherwise re-parse mentions,
set content, mentions, isEdited and editedAt, save and emit message_updated
to the project room. -/
def putMessage (st : MsgStore) (actor mid : Nat) (content : List Char)
    (now : Nat) : MsgStore × HResp × List Emit :=
  if content = [] then (st, ⟨400, false⟩, [])
  else
    match st.msgs.find? (fun p => p.1 = mid) with
    | none => (st, ⟨404, false⟩, [])
    | some e =>
        if e.2.sender ≠ actor then (st, ⟨403, false⟩, [])
        else
          let mentions := parseMentions content st.users
          let m2 :=
            { e.2 with
              content := content, mentions := mentions,
              isEdited := true, editedAt := some now }
          ({ st with msgs := st.msgs.map (fun p => if p.1 = mid then (p.1, m2) else p) },
            ⟨200, true⟩, [Emit.projectRoom e.2.project SockEvent.messageUpdated])

/-- DELETE /api/messages/:id (messages.js lines 204-240): look the message
up, reject a requester who is neither the sender nor an admin with 403,
otherwise soft-delete (isDeleted true, placeholder content), save and emit
message_deleted to the project room. -/
def deleteMessage (st : MsgStore) (actor : Nat) (actorIsAdmin : Bool)
    (mid : Nat) : MsgStore × HResp × List Emit :=
  match st.msgs.find? (fun p => p.1 = mid) with
  | none => (st, ⟨404, false⟩, [])
  | some e =>
      if e.2.sender ≠ actor ∧ actorIsAdmin = false then (st, ⟨403, false⟩, [])
      else
        let m2 :=
          { e.2 with
            isDeleted := true,
            content := "This message has been deleted".toList }
        ({ st with msgs := st.msgs.map (fun p => if p.1 = mid then (p.1, m2) else p) },
          ⟨200, true⟩, [Emit.projectRoom e.2.project SockEvent.messageDeleted])

/-! ### File data model and routes (src/server/models/File.js,
src/server/routes/files.js) -/

/-- A file metadata document / row (fields relevant to listing and
deletion). -/
structure FileRec where
  project : Nat
  uploadedBy : Nat
  fname : List Char
  originalName : List Char
  isDeleted : Bool
  createdAt : Nat
deriving DecidableEq, Repr

/-- File.getProjectFiles (File.js lines 92-101): the project files that are
not soft-deleted, newest first. -/
def getProjectFiles (files : List (Nat × FileRec)) (pid : Nat) :
    List (Nat × FileRec) :=
  (files.filter (fun f => f.2.project = pid ∧ f.2.isDeleted = false)).insertionSort
    (descBy (fun f => f.2.createdAt))

/-- DELETE /api/files/:id (files.js): look the file up, reject a requester
who is neither the uploader nor an admin with 403, otherwise set isDeleted
and save. -/
def deleteFileRoute (files : List (Nat × FileRec)) (actor : Nat)
    (actorIsAdmin : Bool) (fid : Nat) : List (Nat × FileRec) × HResp :=
  match files.find? (fun p => p.1 = fid) with
  | none => (files, ⟨404, false⟩)
  | some f =>
      if f.2.uploadedBy ≠ actor ∧ actorIsAdmin = false then (files, ⟨403, false⟩)
      else
        (files.map (fun p => if p.1 = fid then (p.1, { p.2 with isDeleted := true }) else p),
          ⟨200, true⟩)

/-! ### Project data model and routes (src/unnamed project schema,
src/server/routes/projects.js) -/

/-- Membership role enum: owner, member. -/
inductive PRole where
  | owner
  | member
deriving DecidableEq, Repr

/-- One entry of a project membership list. -/
structure PMember where
  user : Nat
  role : PRole
deriving DecidableEq, Repr

/-- Project category enum. -/
inductive PCat where
  | tech
  | marketing
  | ops
  | personal
deriving DecidableEq, Repr

/-- Project lifecycle status enum. -/
inductive PStatus where
  | active
  | archived
  | completed
deriving DecidableEq, Repr

/-- A project document / row. -/
structure Proj where
  pname : List Char
  description : List Char
  category : PCat
  pstatus : PStatus
  createdBy : Nat
  members : List PMember
deriving DecidableEq, Repr

/-- The Mongoose pre-save hook of the project schema (lines 60-73): on a new
document, when no membership entry carries the creator, push the creator
with role owner. -/
def projectPreSave (isNew : Bool) (p : Proj) : Proj :=
  if isNew ∧ ¬ p.members.any (fun m => m.user = p.createdBy) then
    { p with members := p.members ++ [⟨p.createdBy, PRole.owner⟩] }
  else p

/-- Project.isMember: some membership entry carries the user. -/
def projIsMember (p : Proj) (userId : Nat) : Bool :=
  p.members.any (fun m => m.user = userId)

/-- Project.isOwner: some membership entry carries the user with role
owner. -/
def projIsOwner (p : Proj) (userId : Nat) : Bool :=
  p.members.any (fun m => m.user = userId ∧ m.role = PRole.owner)

/-- POST /api/projects (projects.js lines 108-146): admin-only, validate the
name, build the document with an empty membership list and save, which runs
the pre-save hook on a new document. -/
def createProjectRoute (actorIsAdmin : Bool) (actor : Nat)
    (name : List Char) (description : Option (List Char)) (cat : Option PCat) :
    Option Proj × HResp :=
  if actorIsAdmin = false then (none, ⟨403, false⟩)
  else if name = [] then (none, ⟨400, false⟩)
  else
    let p := projectPreSave true
      { pname := name, description := description.getD [], category := cat.getD PCat.tech,
        pstatus := PStatus.active, createdBy := actor, members := [] }
    (some p, ⟨201, true⟩)

/-- The project_member_added notification created by POST
/api/projects/:id/members (projects.js lines 278-285). -/
def memberAddedNotif (u actor : Nat) (pid : Option Nat) (pname : List Char) : Notif :=
  { user := u
    ntype := NType.projectMemberAdded
    ntitle := "Added to Project".toList
    nmessage := "You\u0027ve been added to project \"".toList ++ pname ++ "\"".toList
    project := pid
    task := none
    triggeredBy := some actor }

/-- POST /api/projects/:id/members (projects.js lines 234-294): only an admin
or the owner may add; an existing member is rejected with 400; otherwise the
user is pushed with role member and saved, then a project_member_added
notification is created.  notifOk models whether that insert succeeds; on a
throw the membership change has already been persisted and the top-level
error handler responds 500. -/
def addMemberRoute (p : Proj) (pid : Option Nat) (notifs : List Notif)
    (actor : Nat) (actorIsAdmin : Bool) (userId : Nat) (notifOk : Bool) :
    Proj × List Notif × HResp :=
  if actorIsAdmin = false ∧ projIsOwner p actor = false then (p, notifs, ⟨403, false⟩)
  else if projIsMember p userId then (p, notifs, ⟨400, false⟩)
  else
    let p2 := projectPreSave false { p with members := p.members ++ [⟨userId, PRole.member⟩] }
    if notifOk then
      (p2, notifs ++ [memberAddedNotif userId actor pid p2.pname], ⟨200, true⟩)
    else (p2, notifs, ⟨500, false⟩)

/-- DELETE /api/projects/:id/members/:userId (projects.js lines 299-344):
only an admin or the owner may remove; when the first membership entry of the
target user has role owner the request is rejected with 400; otherwise all of
the target user entries are filtered out and the project saved. -/
def removeMemberRoute (p : Proj) (actor : Nat) (actorIsAdmin : Bool)
    (userId : Nat) : Proj × HResp :=
  if actorIsAdmin = false ∧ projIsOwner p actor = false then (p, ⟨403, false⟩)
  else
    match p.members.find? (fun m => m.user = userId) with
    | some m =>
        if m.role = PRole.owner then (p, ⟨400, false⟩)
        else
          (projectPreSave false { p with members := p.members.filter (fun m => m.user ≠ userId) },
            ⟨200, true⟩)
    | none =>
        (projectPreSave false { p with members := p.members.filter (fun m => m.user ≠ userId) },
          ⟨200, true⟩)

/-- The owner invariant of the spec: the only membership entry with role
owner is the creator entry, and every entry carrying the creator has role
owner. -/
def ownerInv (p : Proj) : Prop :=
  p.members.filter (fun m => m.role = PRole.owner) = [⟨p.createdBy, PRole.owner⟩]
  ∧ ∀ m ∈ p.members, m.user = p.createdBy → m.role = PRole.owner

/-! ### Registration (src/server/routes/auth.js, POST /api/auth/register) -/

/-- User role enum. -/
inductive Role where
  | admin
  | editor
deriving DecidableEq, Repr

/-- A user row (the fields the register route writes). -/
structure RUser where
  email : List Char
  uname : List Char
  role : Role
  loginStreak : Nat
  lastLogin : Option Nat
deriving DecidableEq, Repr

/-- Body of POST /api/auth/register; role is an optional field of the
request body, not validated by the route validators. -/
structure RegisterReq where
  email : List Char
  password : List Char
  rname : List Char
  role : Option Role
deriving DecidableEq, Repr

/-- User.calculateLoginStreak of models/supabase/User.js (lines 144-161),
with time in days: no previous login starts a streak of 1. -/
def calculateLoginStreak (currentStreak : Nat) (lastLogin : Option Nat)
    (now : Nat) : Nat × Option Nat :=
  match lastLogin with
  | none => (1, some now)
  | some last =>
      let diffDays := now - last
      if diffDays = 1 then (currentStreak + 1, some now)
      else if diffDays > 1 then (1, some now)
      else (currentStreak, some now)

/-- POST /api/auth/register (auth.js lines 40-91; the Mongoose variant at
lines 297-347 computes the role identically): after express-validator
(password at least 6 characters, nonempty name of at most 100 characters)
and the duplicate-email check, the user is created with role admin when no
user exists yet, and otherwise with the role supplied in the body, default
editor.  The route is mounted without the protect middleware, so no
authenticated actor is an input of this handler. -/
def registerRoute (users : List RUser) (req : RegisterReq) (now : Nat) :
    List RUser × Option RUser × HResp :=
  if req.password.length < 6 ∨ req.rname = [] ∨ req.rname.length > 100 then
    (users, none, ⟨400, false⟩)
  else if users.any (fun u => u.email = req.email) then (users, none, ⟨400, false⟩)
  else
    let isFirstUser := users.length = 0
    let streak := calculateLoginStreak 0 none now
    let newUser : RUser :=
      { email := req.email, uname := req.rname,
        role := if isFirstUser then Role.admin else req.role.getD Role.editor,
        loginStreak := streak.1, lastLogin := streak.2 }
    (users ++ [newUser], some newUser, ⟨201, true⟩)

/-! ## Theorems -/

/-! ### Helper lemmas for the task completion invariant -/

/-- After the pre-save hook runs with the status path modified, the
completion invariant holds whatever the incoming document was. -/
theorem taskPreSave_true_inv (now : Nat) (t : MTask) :
    taskInv (taskPreSave true now t) := by
  unfold taskPreSave taskInv
  by_cases h1 : t.status = TStat.done ∧ t.completedAt = none
  · simp [h1]
  · by_cases h2 : t.status = TStat.done
    · have h3 : t.completedAt ≠ none := by
        intro hc
        exact h1 ⟨h2, hc⟩
      simp [h1, h2, h3]
    · simp [h1, h2]

/-- The pre-save hook with the status path unmodified is the identity. -/
theorem taskPreSave_false (now : Nat) (t : MTask) :
    taskPreSave false now t = t := rfl

/-- The route-level field assignments never touch completedAt. -/
theorem applyTaskUpdates_completedAt (r : UpdateTaskReq) (t : MTask) :
    (applyTaskUpdates r t).completedAt = t.completedAt := rfl

/-- C1: after any create or update operation on a task — the Mongoose create
and update paths of the task routes (which run the pre-save hook of
Task.js) and the Supabase Task.create and Task.update services — the task
satisfies status = done iff completedAt is non-null; for the update paths
this is shown assuming the incoming task already satisfies the invariant. -/
theorem task_status_done_iff_completedAt :
    (∀ req actor now, taskInv (mongoCreateTask req actor now)) ∧
    (∀ r t now, taskInv t → taskInv (mongoUpdateTask r t now)) ∧
    (∀ req creator now, taskInv (supaCreateTask req creator now)) ∧
    (∀ upd cur now, taskInv cur → taskInv (supaUpdateTask upd cur now)) := by
  refine ⟨?_, ?_, ?_, ?_⟩
  · intro req actor now
    exact taskPreSave_true_inv now _
  · intro r t now hinv
    show taskInv (taskPreSave (decide ((applyTaskUpdates r t).status ≠ t.status)) now
      (applyTaskUpdates r t))
    by_cases h : (applyTaskUpdates r t).status = t.status
    · have hd : decide ((applyTaskUpdates r t).status ≠ t.status) = false := by
        simp [h]
      rw [hd, taskPreSave_false]
      unfold taskInv at hinv ⊢
      rw [applyTaskUpdates_completedAt, h]
      exact hinv
    · have hd : decide ((applyTaskUpdates r t).status ≠ t.status) = true := by
        simp [h]
      rw [hd]
      exact taskPreSave_true_inv now _
  · intro req creator now
    unfold supaCreateTask taskInv
    by_cases h : req.status.getD TStat.statNew = TStat.done
    · simp [h]
    · simp [h]
  · intro upd cur now hinv
    unfold supaUpdateTask taskInv
    unfold taskInv at hinv
    cases hst : upd.status with
    | none => simpa using hinv
    | some s =>
        by_cases h1 : s = TStat.done ∧ cur.status ≠ TStat.done
        · simp [h1]
        · by_cases h2 : s = TStat.done
          · have h3 : cur.status = TStat.done := by
              by_contra hc
              exact h1 ⟨h2, hc⟩
            simp [h1, h2, h3, hinv.mp h3]
          · simp [h1, h2]

/-! ### Helper lemmas for the mention parser -/

/-- Elements produced by the deduplication loop were not in the seen
accumulator. -/
theorem dedupFirstGo_not_seen :
    ∀ (l seen : List Nat), ∀ x ∈ dedupFirstGo l seen, x ∉ seen := by
  intro l
  induction l with
  | nil => intro seen x hx; simp [dedupFirstGo] at hx
  | cons a as ih =>
      intro seen x hx
      unfold dedupFirstGo at hx
      by_cases hc : a ∈ seen
      · rw [if_pos (List.elem_iff.2 hc)] at hx
        exact ih seen x hx
      · have hcf : seen.contains a = false := by
          cases hb : seen.contains a
          · rfl
          · exact absurd (List.elem_iff.1 hb) hc
        rw [hcf] at hx
        simp only [Bool.false_eq_true, if_false, List.mem_cons] at hx
        cases hx with
        | inl he => rw [he]; exact hc
        | inr hm =>
            intro hxs
            exact ih (a :: seen) x hm (List.mem_cons_of_mem a hxs)

/-- The deduplication loop yields a list without duplicates. -/
theorem dedupFirstGo_nodup :
    ∀ (l seen : List Nat), (dedupFirstGo l seen).Nodup := by
  intro l
  induction l with
  | nil => intro seen; simp [dedupFirstGo]
  | cons a as ih =>
      intro seen
      unfold dedupFirstGo
      by_cases hc : a ∈ seen
      · rw [if_pos (List.elem_iff.2 hc)]
        exact ih seen
      · have hcf : seen.contains a = false := by
          cases hb : seen.contains a
          · rfl
          · exact absurd (List.elem_iff.1 hb) hc
        rw [hcf]
        simp only [Bool.false_eq_true, if_false, List.nodup_cons]
        refine ⟨?_, ih (a :: seen)⟩
        intro hmem
        exact dedupFirstGo_not_seen as (a :: seen) a hmem (List.mem_cons_self a seen)

/-- The push-unless-present loop of parseMentions is the first-match
resolution of each token followed by order-preserving deduplication. -/
theorem parseMentionsGo_eq (users : List PMUser) :
    ∀ (toks : List (List Char)) (acc seen : List Nat),
      (∀ x : Nat, x ∈ acc ↔ x ∈ seen) →
      parseMentionsGo users toks acc
        = acc ++ dedupFirstGo (toks.filterMap (resolveFirst users)) seen := by
  intro toks
  induction toks with
  | nil => intro acc seen _; simp [parseMentionsGo, dedupFirstGo]
  | cons tok rest ih =>
      intro acc seen hsync
      unfold parseMentionsGo
      cases hf : users.find? (userMatches (lowerStr tok)) with
      | none =>
          have hr : resolveFirst users tok = none := by
            unfold resolveFirst
            rw [hf]
            rfl
          rw [List.filterMap_cons, hr]
          dsimp only
          exact ih acc seen hsync
      | some u =>
          have hr : resolveFirst users tok = some u.uid := by
            unfold resolveFirst
            rw [hf]
            rfl
          rw [List.filterMap_cons, hr]
          dsimp only
          unfold dedupFirstGo
          by_cases hc : u.uid ∈ acc
          · rw [if_pos (List.elem_iff.2 hc), if_pos (List.elem_iff.2 ((hsync u.uid).1 hc))]
            exact ih acc seen hsync
          · have hcf : acc.contains u.uid = false := by
              cases hb : acc.contains u.uid
              · rfl
              · exact absurd (List.elem_iff.1 hb) hc
            have hcs : u.uid ∉ seen := fun hs => hc ((hsync u.uid).2 hs)
            have hcsf : seen.contains u.uid = false := by
              cases hb : seen.contains u.uid
              · rfl
              · exact absurd (List.elem_iff.1 hb) hcs
            rw [hcf, hcsf]
            simp only [Bool.false_eq_true, if_false]
            rw [ih (acc ++ [u.uid]) (u.uid :: seen) ?_]
            · rw [List.append_assoc]
              rfl
            · intro x
              simp only [List.mem_append, List.mem_singleton, List.mem_cons]
              rw [hsync x]
              tauto

/-- C3 (amended): the mention parser is total and returns the ordered list of
distinct user ids obtained by resolving each token to the FIRST active user
(in list order) whose lowercased display name or email local part contains
the lowercased token, dropping unmatched tokens and duplicate ids.  In
particular an ambiguous token is not dropped: it resolves to the first
matching user. -/
theorem parseMentions_first_match (content : List Char) (users : List PMUser) :
    parseMentions content users = parseMentionsFirst content users ∧
    (parseMentions content users).Nodup := by
  have heq : parseMentions content users = parseMentionsFirst content users := by
    unfold parseMentions parseMentionsFirst dedupFirst
    rw [parseMentionsGo_eq users (scanTokens content) [] [] (fun x => Iff.rfl)]
    rfl
  refine ⟨heq, ?_⟩
  rw [heq]
  exact dedupFirstGo_nodup _ _

/-- C3 counterexample: for the content at-lic with two active users Alice and
Malice, the token lic matches both users (ambiguous), yet the code resolves
it to the first user instead of dropping it, so the claimed
drop-ambiguous-token behaviour disagrees with the code. -/
theorem parseMentions_ambiguous_counterexample :
    parseMentions ("@lic check this".toList)
        [⟨1, "Alice".toList, "alice@x.com".toList⟩,
         ⟨2, "Malice".toList, "malice@y.com".toList⟩] = [1] ∧
    parseMentionsClaimed ("@lic check this".toList)
        [⟨1, "Alice".toList, "alice@x.com".toList⟩,
         ⟨2, "Malice".toList, "malice@y.com".toList⟩] = [] ∧
    (userMatches ("lic".toList) ⟨1, "Alice".toList, "alice@x.com".toList⟩ = true ∧
     userMatches ("lic".toList) ⟨2, "Malice".toList, "malice@y.com".toList⟩ = true) := by
  refine ⟨?_, ?_, ?_, ?_⟩ <;> decide

/-- Witness for C1 at concrete inputs: a concrete done task satisfying the
invariant, updated by a concrete request. -/
theorem task_status_done_iff_completedAt_witness :
    taskInv ⟨1, [], [], TStat.done, TPrio.medium, none, none, some 3, 2, 0, []⟩ ∧
    taskInv (mongoUpdateTask ⟨none, none, some TStat.statNew, none, none, none, none, none⟩
      ⟨1, [], [], TStat.done, TPrio.medium, none, none, some 3, 2, 0, []⟩ 9) ∧
    taskInv (supaUpdateTask ⟨none, none, some TStat.done, none, none, none, none, none⟩
      ⟨1, [], [], TStat.done, TPrio.medium, none, none, some 3, 2, 0, []⟩ 9) :=
  ⟨by unfold taskInv; decide,
    task_status_done_iff_completedAt.2.1 _ _ 9 (by unfold taskInv; decide),
    task_status_done_iff_completedAt.2.2.2 _ _ 9 (by unfold taskInv; decide)⟩

/-! ### Task creation notification (C4) -/

/-- C4: when POST /api/tasks is made by actor A with an assignee U distinct
from A and the referenced project exists (and notification creation
succeeds), exactly one notification is appended, with recipient U and kind
task_assigned; when U equals A or no assignee is supplied, the notification
store is unchanged. -/
theorem postTask_assigned_notification (st : TaskStore) (actor : Nat)
    (req : CreateTaskReq) (now tid : Nat) (pe : Nat × List Char)
    (hp : st.projects.find? (fun p => p.1 = req.projectId) = some pe) :
    (∀ u, req.assignedTo = some u → u ≠ actor →
       ∃ n, (postTask st actor req now tid true).1.notifs = st.notifs ++ [n] ∧
         n.user = u ∧ n.ntype = NType.taskAssigned) ∧
    (∀ u, req.assignedTo = some u → u = actor →
       (postTask st actor req now tid true).1.notifs = st.notifs) ∧
    (req.assignedTo = none →
       (postTask st actor req now tid true).1.notifs = st.notifs) := by
  unfold postTask
  rw [hp]
  refine ⟨?_, ?_, ?_⟩
  · intro u hu hne
    rw [hu]
    dsimp only
    rw [if_pos hne]
    exact ⟨taskAssignedNotif u actor req.projectId tid req.title pe.2, rfl, rfl, rfl⟩
  · intro u hu heq
    rw [hu]
    dsimp only
    rw [if_neg (by simp [heq])]
  · intro hu
    rw [hu]

/-- Witness for C4: a concrete store with one project, a request assigning
user 7, actor 5. -/
theorem postTask_assigned_notification_witness :
    ∃ n, (postTask ⟨[(1, [])], [], []⟩ 5 ⟨1, [], none, none, none, some 7, none, none, none⟩
        0 101 true).1.notifs = [] ++ [n] ∧ n.user = 7 ∧ n.ntype = NType.taskAssigned :=
  (postTask_assigned_notification ⟨[(1, [])], [], []⟩ 5
      ⟨1, [], none, none, none, some 7, none, none, none⟩ 0 101 (1, []) rfl).1
    7 rfl (by decide)

/-! ### task_completed emission (C9) -/

/-- C9: a PUT /api/tasks/:id on an existing task emits to the project room
exactly one task_completed event when the supplied status is done and the
previous status was not, and nothing otherwise; a PUT on a missing task and
a POST /api/tasks (task creation, with or without assignee) emit no
project-room event at all. -/
theorem taskCompleted_emitted_iff_transition :
    (∀ st actor tid r now e,
       st.tasks.find? (fun p => p.1 = tid) = some e →
       (putTask st actor tid r now).2.2
         = (if r.status = some TStat.done ∧ e.2.status ≠ TStat.done
             then [Emit.projectRoom e.2.project SockEvent.taskCompleted] else [])) ∧
    (∀ st actor tid r now,
       st.tasks.find? (fun p => p.1 = tid) = none →
       (putTask st actor tid r now).2.2 = []) ∧
    (∀ st actor req now tid ok,
       ∀ ev ∈ (postTask st actor req now tid ok).2.2, ev.isProjectRoom = false) := by
  refine ⟨?_, ?_, ?_⟩
  · intro st actor tid r now e he
    unfold putTask
    rw [he]
  · intro st actor tid r now he
    unfold putTask
    rw [he]
  · intro st actor req now tid ok ev hev
    unfold postTask at hev
    cases hp : st.projects.find? (fun p => p.1 = req.projectId) with
    | none => rw [hp] at hev; simp at hev
    | some pe =>
        rw [hp] at hev
        cases ha : req.assignedTo with
        | none => rw [ha] at hev; simp at hev
        | some u =>
            rw [ha] at hev
            dsimp only at hev
            by_cases hne : u ≠ actor
            · rw [if_pos hne] at hev
              cases ok with
              | true =>
                  rw [if_pos rfl] at hev
                  simp only [List.mem_singleton] at hev
                  rw [hev]
                  rfl
              | false =>
                  rw [if_neg (by simp)] at hev
                  simp at hev
            · rw [if_neg hne] at hev
              simp at hev

/-- Witness for C9: a concrete store holding one task in status new, updated
to done. -/
theorem taskCompleted_emitted_iff_transition_witness :
    (putTask ⟨[(1, [])],
        [(9, ⟨1, [], [], TStat.statNew, TPrio.medium, none, none, none, 2, 0, []⟩)], []⟩
      5 9 ⟨none, none, some TStat.done, none, none, none, none, none⟩ 3).2.2
      = [Emit.projectRoom 1 SockEvent.taskCompleted] := by
  rw [taskCompleted_emitted_iff_transition.1
    ⟨[(1, [])], [(9, ⟨1, [], [], TStat.statNew, TPrio.medium, none, none, none, 2, 0, []⟩)], []⟩
    5 9 ⟨none, none, some TStat.done, none, none, none, none, none⟩ 3
    (9, ⟨1, [], [], TStat.statNew, TPrio.medium, none, none, none, 2, 0, []⟩) rfl]
  decide

/-! ### Notification failure semantics (C2) -/

/-- The project pre-save hook does nothing on a document that is not new. -/
theorem projectPreSave_false (p : Proj) : projectPreSave false p = p := by
  unfold projectPreSave
  rw [if_neg]
  intro h
  simp at h

/-- C2 counterexample: a concrete task creation (project 1 exists, actor 5
assigns user 7) whose notification insert fails: the created task IS
persisted, but the response is the 500 error of the top-level handler, not a
success — refuting the claim that the operation still returns success. -/
theorem notif_failure_counterexample :
    (postTask ⟨[(1, [])], [], []⟩ 5 ⟨1, [], none, none, none, some 7, none, none, none⟩
        0 101 false).2.1 = ⟨500, false⟩ ∧
    (postTask ⟨[(1, [])], [], []⟩ 5 ⟨1, [], none, none, none, some 7, none, none, none⟩
        0 101 false).1.tasks.length = 1 := by
  exact ⟨rfl, rfl⟩

/-- C2 (amended): for the three primary mutations that create notifications
(task creation with a distinct assignee, message send with mentions of other
users, project member add), a failure of a notification-creation step leaves
the primary mutation persisted (no rollback), but the failure is NOT
swallowed: the error propagates to the top-level error handler, which logs
it and responds 500 instead of success.  On the message path, where the
inserts run in a loop, the rows inserted and the user-room emits sent by
iterations before the failing one remain — only the failing insert and the
later iterations are lost. -/
theorem notif_failure_persists_but_errors :
    (∀ st actor req now tid u pe,
       st.projects.find? (fun p => p.1 = req.projectId) = some pe →
       req.assignedTo = some u → u ≠ actor →
       (postTask st actor req now tid false).1.tasks
           = st.tasks ++ [(tid, mongoCreateTask req actor now)] ∧
       (postTask st actor req now tid false).1.notifs = st.notifs ∧
       (postTask st actor req now tid false).2.1 = ⟨500, false⟩) ∧
    (∀ st actor aname pid content now mid pe k,
       content ≠ [] →
       st.projects.find? (fun p => p.1 = pid) = some pe →
       k < ((parseMentions content st.users).filter (fun u => u ≠ actor)).length →
       (∃ m, (postMessage st actor aname pid content now mid (some k)).1.msgs
             = st.msgs ++ [(mid, m)] ∧ m.sender = actor ∧ m.content = content) ∧
       (postMessage st actor aname pid content now mid (some k)).1.notifs
           = st.notifs
             ++ (((parseMentions content st.users).filter (fun u => u ≠ actor)).take k).map
               (fun u => mentionNotif u actor pid aname pe.2) ∧
       (postMessage st actor aname pid content now mid (some k)).2.1 = ⟨500, false⟩ ∧
       (postMessage st actor aname pid content now mid (some k)).2.2
           = Emit.projectRoom pid SockEvent.newMessage
             :: (((parseMentions content st.users).filter (fun u => u ≠ actor)).take k).map
               (fun u => Emit.userRoom u SockEvent.notification)) ∧
    (∀ p pid notifs actor userId,
       projIsMember p userId = false →
       (addMemberRoute p pid notifs actor true userId false).1.members
           = p.members ++ [⟨userId, PRole.member⟩] ∧
       (addMemberRoute p pid notifs actor true userId false).2.1 = notifs ∧
       (addMemberRoute p pid notifs actor true userId false).2.2 = ⟨500, false⟩) := by
  refine ⟨?_, ?_, ?_⟩
  · intro st actor req now tid u pe hp ha hne
    unfold postTask
    rw [hp, ha]
    dsimp only
    rw [if_pos hne, if_neg (by simp)]
    exact ⟨rfl, rfl, rfl⟩
  · intro st actor aname pid content now mid pe k hc hp hk
    unfold postMessage
    rw [if_neg hc, hp]
    dsimp only
    rw [if_neg (Nat.not_le.2 hk)]
    exact ⟨⟨_, rfl, rfl, rfl⟩, rfl, rfl, rfl⟩
  · intro p pid notifs actor userId hmem
    unfold addMemberRoute
    rw [if_neg (by simp), if_neg (by simp [hmem]), if_neg (by simp)]
    refine ⟨?_, rfl, rfl⟩
    rw [projectPreSave_false]

/-- Witness for C2 (amended) at concrete inputs for all three mutation
paths; on the message path the content mentions two users and the second
insert (index 1) fails, so exactly the first mention notification row is
persisted while the response is 500. -/
theorem notif_failure_persists_but_errors_witness :
    ((postTask ⟨[(1, [])], [], []⟩ 5 ⟨1, [], none, none, none, some 7, none, none, none⟩
        0 101 false).2.1 = ⟨500, false⟩) ∧
    ((postMessage ⟨[(1, [])], [⟨7, "bob".toList, "bob@x.com".toList⟩,
          ⟨8, "carol".toList, "carol@y.com".toList⟩], [], []⟩ 5 []
        1 ("@bob @carol hi".toList) 0 55 (some 1)).1.notifs
      = [] ++ (((parseMentions ("@bob @carol hi".toList)
            [⟨7, "bob".toList, "bob@x.com".toList⟩,
             ⟨8, "carol".toList, "carol@y.com".toList⟩]).filter
            (fun u => u ≠ 5)).take 1).map (fun u => mentionNotif u 5 1 [] [])) ∧
    ((postMessage ⟨[(1, [])], [⟨7, "bob".toList, "bob@x.com".toList⟩,
          ⟨8, "carol".toList, "carol@y.com".toList⟩], [], []⟩ 5 []
        1 ("@bob @carol hi".toList) 0 55 (some 1)).2.1 = ⟨500, false⟩) ∧
    ((addMemberRoute ⟨[], [], PCat.tech, PStatus.active, 2, [⟨2, PRole.owner⟩]⟩
        (some 1) [] 2 true 7 false).2.2 = ⟨500, false⟩) :=
  ⟨(notif_failure_persists_but_errors.1 ⟨[(1, [])], [], []⟩ 5
      ⟨1, [], none, none, none, some 7, none, none, none⟩ 0 101 7 (1, []) rfl rfl
      (by decide)).2.2,
   (notif_failure_persists_but_errors.2.1
      ⟨[(1, [])], [⟨7, "bob".toList, "bob@x.com".toList⟩,
        ⟨8, "carol".toList, "carol@y.com".toList⟩], [], []⟩ 5 [] 1
      ("@bob @carol hi".toList) 0 55 (1, []) 1 (by decide) rfl (by decide)).2.1,
   (notif_failure_persists_but_errors.2.1
      ⟨[(1, [])], [⟨7, "bob".toList, "bob@x.com".toList⟩,
        ⟨8, "carol".toList, "carol@y.com".toList⟩], [], []⟩ 5 [] 1
      ("@bob @carol hi".toList) 0 55 (1, []) 1 (by decide) rfl (by decide)).2.2.1,
   (notif_failure_persists_but_errors.2.2 ⟨[], [], PCat.tech, PStatus.active, 2, [⟨2, PRole.owner⟩]⟩
      (some 1) [] 2 7 (by decide)).2.2⟩

/-! ### Message edit and delete authorization (C5) -/

/-- C5: a message edit (with valid content) by a user who is not the sender,
and a message delete by a non-admin user who is not the sender, are rejected
with a 403 response, emit nothing and leave the whole store unchanged. -/
theorem message_edit_delete_authorization :
    (∀ st actor mid content now e,
       content ≠ [] →
       st.msgs.find? (fun p => p.1 = mid) = some e →
       e.2.sender ≠ actor →
       putMessage st actor mid content now = (st, ⟨403, false⟩, [])) ∧
    (∀ st actor mid e,
       st.msgs.find? (fun p => p.1 = mid) = some e →
       e.2.sender ≠ actor →
       deleteMessage st actor false mid = (st, ⟨403, false⟩, [])) := by
  constructor
  · intro st actor mid content now e hc he hs
    unfold putMessage
    rw [if_neg hc, he]
    dsimp only
    rw [if_pos hs]
  · intro st actor mid e he hs
    unfold deleteMessage
    rw [he]
    dsimp only
    rw [if_pos ⟨hs, rfl⟩]

/-- Witness for C5: message 4 of project 1 was sent by user 3; user 8 (not
an admin) attempts an edit and a delete. -/
theorem message_edit_delete_authorization_witness :
    putMessage ⟨[], [], [(4, ⟨1, 3, [], [], false, none, false, 0⟩)], []⟩ 8 4 [' '] 9
        = (⟨[], [], [(4, ⟨1, 3, [], [], false, none, false, 0⟩)], []⟩, ⟨403, false⟩, []) ∧
    deleteMessage ⟨[], [], [(4, ⟨1, 3, [], [], false, none, false, 0⟩)], []⟩ 8 false 4
        = (⟨[], [], [(4, ⟨1, 3, [], [], false, none, false, 0⟩)], []⟩, ⟨403, false⟩, []) :=
  ⟨message_edit_delete_authorization.1
      ⟨[], [], [(4, ⟨1, 3, [], [], false, none, false, 0⟩)], []⟩ 8 4 [' '] 9
      (4, ⟨1, 3, [], [], false, none, false, 0⟩) (by decide) rfl (by decide),
   message_edit_delete_authorization.2
      ⟨[], [], [(4, ⟨1, 3, [], [], false, none, false, 0⟩)], []⟩ 8 4
      (4, ⟨1, 3, [], [], false, none, false, 0⟩) rfl (by decide)⟩

/-! ### Soft-deleted entities and listings (C6) -/

/-- Everything returned by the file listing is a live file of the
project. -/
theorem mem_getProjectFiles (files : List (Nat × FileRec)) (pid : Nat)
    (f : Nat × FileRec) (hf : f ∈ getProjectFiles files pid) :
    f ∈ files ∧ f.2.project = pid ∧ f.2.isDeleted = false := by
  unfold getProjectFiles at hf
  rw [(List.perm_insertionSort _ _).mem_iff] at hf
  have h := List.mem_filter.1 hf
  exact ⟨h.1, of_decide_eq_true h.2⟩

/-- Everything returned by the message listing is a live message of the
project. -/
theorem mem_getProjectMessages (msgs : List (Nat × Msg)) (pid page limit : Nat)
    (m : Nat × Msg) (hm : m ∈ getProjectMessages msgs pid page limit) :
    m ∈ msgs ∧ m.2.project = pid ∧ m.2.isDeleted = false := by
  unfold getProjectMessages at hm
  rw [List.mem_reverse] at hm
  have h1 := List.take_subset _ _ hm
  have h2 := List.drop_subset _ _ h1
  rw [(List.perm_insertionSort _ _).mem_iff] at h2
  have h := List.mem_filter.1 h2
  exact ⟨h.1, of_decide_eq_true h.2⟩

/-- C6: default listings never show a soft-deleted row: every file returned
by getProjectFiles and every message returned by getProjectMessages belongs
to the requested project and has isDeleted false; and after a successful
file delete or message delete, no row with the deleted id appears in any
listing. -/
theorem soft_deleted_never_listed :
    (∀ files pid, ∀ f ∈ getProjectFiles files pid,
       f.2.project = pid ∧ f.2.isDeleted = false) ∧
    (∀ files actor adm fid,
       (deleteFileRoute files actor adm fid).2.success = true →
       ∀ pid, ∀ g ∈ getProjectFiles (deleteFileRoute files actor adm fid).1 pid,
         g.1 ≠ fid) ∧
    (∀ msgs pid page limit, ∀ m ∈ getProjectMessages msgs pid page limit,
       m.2.project = pid ∧ m.2.isDeleted = false) ∧
    (∀ st actor adm mid,
       (deleteMessage st actor adm mid).2.1.success = true →
       ∀ pid page limit,
         ∀ m ∈ getProjectMessages (deleteMessage st actor adm mid).1.msgs pid page limit,
           m.1 ≠ mid) := by
  refine ⟨?_, ?_, ?_, ?_⟩
  · intro files pid f hf
    exact (mem_getProjectFiles files pid f hf).2
  · intro files actor adm fid hsucc pid g hg
    unfold deleteFileRoute at hsucc hg
    cases hfind : files.find? (fun p => p.1 = fid) with
    | none =>
        rw [hfind] at hsucc
        simp at hsucc
    | some f0 =>
        rw [hfind] at hsucc hg
        dsimp only at hsucc hg
        by_cases hauth : f0.2.uploadedBy ≠ actor ∧ adm = false
        · rw [if_pos hauth] at hsucc
          simp at hsucc
        · rw [if_neg hauth] at hg
          have hmem := mem_getProjectFiles _ pid g hg
          have hdel : g.2.isDeleted = false := hmem.2.2
          have hmap := hmem.1
          rw [List.mem_map] at hmap
          obtain ⟨x, _, hx⟩ := hmap
          intro hgid
          by_cases hxid : x.1 = fid
          · rw [if_pos hxid] at hx
            rw [← hx] at hdel
            simp at hdel
          · rw [if_neg hxid] at hx
            rw [← hx] at hgid
            exact hxid hgid
  · intro msgs pid page limit m hm
    exact (mem_getProjectMessages msgs pid page limit m hm).2
  · intro st actor adm mid hsucc pid page limit m hm
    unfold deleteMessage at hsucc hm
    cases hfind : st.msgs.find? (fun p => p.1 = mid) with
    | none =>
        rw [hfind] at hsucc
        simp at hsucc
    | some e =>
        rw [hfind] at hsucc hm
        dsimp only at hsucc hm
        by_cases hauth : e.2.sender ≠ actor ∧ adm = false
        · rw [if_pos hauth] at hsucc
          simp at hsucc
        · rw [if_neg hauth] at hm
          have hmem := mem_getProjectMessages _ pid page limit m hm
          have hdel : m.2.isDeleted = false := hmem.2.2
          have hmap := hmem.1
          rw [List.mem_map] at hmap
          obtain ⟨x, _, hx⟩ := hmap
          intro hgid
          by_cases hxid : x.1 = mid
          · rw [if_pos hxid] at hx
            rw [← hx] at hdel
            simp at hdel
          · rw [if_neg hxid] at hx
            rw [← hx] at hgid
            exact hxid hgid

/-- Witness for C6: after the uploader deletes file 5, the listing of
project 1 contains nothing with id 5; after an admin deletes message 6, the
listing of project 1 contains nothing with id 6. -/
theorem soft_deleted_never_listed_witness :
    (∀ g ∈ getProjectFiles (deleteFileRoute [(5, ⟨1, 3, [], [], false, 0⟩)] 3 false 5).1 1,
       g.1 ≠ 5) ∧
    (∀ m ∈ getProjectMessages
        (deleteMessage ⟨[], [], [(6, ⟨1, 3, [], [], false, none, false, 0⟩)], []⟩ 9 true 6).1.msgs
        1 1 50, m.1 ≠ 6) :=
  ⟨soft_deleted_never_listed.2.1 [(5, ⟨1, 3, [], [], false, 0⟩)] 3 false 5 rfl 1,
   soft_deleted_never_listed.2.2.2
     ⟨[], [], [(6, ⟨1, 3, [], [], false, none, false, 0⟩)], []⟩ 9 true 6 rfl 1 1 50⟩

/-! ### Message listing order (C8) -/

/-- C8: a message listing is always sorted ascending by creation time
(newest-first pagination reversed to chronological order), and for page 1
with a positive limit the returned list ends with a newest live message of
the project: its creation time bounds that of every live message of the
project. -/
theorem getProjectMessages_chronological :
    (∀ msgs pid page limit,
       (getProjectMessages msgs pid page limit).Pairwise
         (fun a b => a.2.createdAt ≤ b.2.createdAt)) ∧
    (∀ msgs pid limit m, 1 ≤ limit → m ∈ msgs →
       m.2.project = pid → m.2.isDeleted = false →
       ∃ last, (getProjectMessages msgs pid 1 limit).getLast? = some last ∧
         last.2.project = pid ∧ last.2.isDeleted = false ∧
         ∀ x ∈ msgs, x.2.project = pid → x.2.isDeleted = false →
           x.2.createdAt ≤ last.2.createdAt) := by
  constructor
  · intro msgs pid page limit
    unfold getProjectMessages
    rw [List.pairwise_reverse]
    have hs : ((msgs.filter (fun m => m.2.project = pid ∧ m.2.isDeleted = false)).insertionSort
        (descBy (fun m => m.2.createdAt))).Pairwise (descBy (fun m => m.2.createdAt)) :=
      List.sorted_insertionSort _ _
    exact ((hs.sublist (List.drop_sublist _ _)).sublist (List.take_sublist _ _)).imp
      (fun h => h)
  · intro msgs pid limit m hlim hmem hproj hdel
    unfold getProjectMessages
    have hmf : m ∈ msgs.filter (fun m => m.2.project = pid ∧ m.2.isDeleted = false) :=
      List.mem_filter.2 ⟨hmem, decide_eq_true (by exact ⟨hproj, hdel⟩)⟩
    have hms : m ∈ (msgs.filter (fun m => m.2.project = pid ∧ m.2.isDeleted = false)).insertionSort
        (descBy (fun m => m.2.createdAt)) :=
      ((List.perm_insertionSort _ _).mem_iff).2 hmf
    obtain ⟨h, t, hht⟩ := List.exists_cons_of_ne_nil (List.ne_nil_of_mem hms)
    have hsorted : ((msgs.filter (fun m => m.2.project = pid ∧ m.2.isDeleted = false)).insertionSort
        (descBy (fun m => m.2.createdAt))).Pairwise (descBy (fun m => m.2.createdAt)) :=
      List.sorted_insertionSort _ _
    have hmax : ∀ x ∈ msgs.filter (fun m => m.2.project = pid ∧ m.2.isDeleted = false),
        x.2.createdAt ≤ h.2.createdAt := by
      intro x hx
      have hxs := ((List.perm_insertionSort
        (descBy (fun m => m.2.createdAt))
        (msgs.filter (fun m => m.2.project = pid ∧ m.2.isDeleted = false))).mem_iff).2 hx
      rw [hht] at hxs
      cases List.mem_cons.1 hxs with
      | inl he => rw [he]
      | inr ht =>
          rw [hht] at hsorted
          exact (List.pairwise_cons.1 hsorted).1 x ht
    have hhf : h ∈ msgs.filter (fun m => m.2.project = pid ∧ m.2.isDeleted = false) := by
      rw [← (List.perm_insertionSort (descBy (fun m => m.2.createdAt)) _).mem_iff, hht]
      exact List.mem_cons_self h t
    have hhp := of_decide_eq_true (List.mem_filter.1 hhf).2
    refine ⟨h, ?_, hhp.1, hhp.2, ?_⟩
    · rw [hht]
      have hskip : (1 - 1) * limit = 0 := by simp
      rw [hskip]
      show (List.take limit (List.drop 0 (h :: t))).reverse.getLast? = some h
      rw [List.drop_zero]
      cases limit with
      | zero => exact absurd hlim (by simp)
      | succ k =>
          rw [List.take_succ_cons, List.reverse_cons, List.getLast?_concat]
    · intro x hx hxp hxd
      exact hmax x (List.mem_filter.2 ⟨hx, decide_eq_true (by exact ⟨hxp, hxd⟩)⟩)

/-- Witness for C8: a two-message store; the page-1 listing ends with the
newer message. -/
theorem getProjectMessages_chronological_witness :
    ∃ last, (getProjectMessages
        [(1, ⟨1, 3, [], [], false, none, false, 5⟩), (2, ⟨1, 3, [], [], false, none, false, 9⟩)]
        1 1 50).getLast? = some last ∧
      last.2.project = 1 ∧ last.2.isDeleted = false ∧
      ∀ x ∈ [((1 : Nat), (⟨1, 3, [], [], false, none, false, 5⟩ : Msg)),
             (2, ⟨1, 3, [], [], false, none, false, 9⟩)],
        x.2.project = 1 → x.2.isDeleted = false → x.2.createdAt ≤ last.2.createdAt :=
  getProjectMessages_chronological.2
    [(1, ⟨1, 3, [], [], false, none, false, 5⟩), (2, ⟨1, 3, [], [], false, none, false, 9⟩)]
    1 50 (1, ⟨1, 3, [], [], false, none, false, 5⟩) (by decide) (by decide) rfl rfl

/-! ### Project owner invariant (C7) -/

/-- Under the owner invariant the creator entry is in the membership
list. -/
theorem ownerInv_creator_mem (p : Proj) (h : ownerInv p) :
    (⟨p.createdBy, PRole.owner⟩ : PMember) ∈ p.members := by
  have hx : (⟨p.createdBy, PRole.owner⟩ : PMember)
      ∈ p.members.filter (fun m => m.role = PRole.owner) := by
    rw [h.1]
    exact List.mem_singleton_self _
  exact (List.mem_filter.1 hx).1

/-- Under the owner invariant, removing every entry of a user other than the
creator preserves the invariant. -/
theorem ownerInv_filter_ne (p : Proj) (userId : Nat) (h : ownerInv p)
    (hne : userId ≠ p.createdBy) :
    ownerInv { p with members := p.members.filter (fun m => m.user ≠ userId) } := by
  constructor
  · show (p.members.filter (fun m => m.user ≠ userId)).filter
        (fun m => m.role = PRole.owner) = _
    rw [List.filter_filter]
    rw [List.filter_congr (fun a _ => Bool.and_comm (decide (a.role = PRole.owner))
      (decide (a.user ≠ userId)))]
    rw [← List.filter_filter, h.1]
    have : decide ((⟨p.createdBy, PRole.owner⟩ : PMember).user ≠ userId) = true := by
      simp
      exact fun hc => hne hc.symm
    simp [List.filter, this]
  · intro m hm hmu
    exact h.2 m (List.mem_filter.1 hm).1 hmu

/-- Under the owner invariant, the target of a membership removal that is
not rejected is not the creator. -/
theorem removeTarget_ne_creator (p : Proj) (userId : Nat) (h : ownerInv p)
    (heq : userId = p.createdBy) :
    ∃ m, p.members.find? (fun m => m.user = userId) = some m ∧ m.role = PRole.owner := by
  have hmem := ownerInv_creator_mem p h
  have hsome : (p.members.find? (fun m => m.user = userId)).isSome := by
    rw [List.find?_isSome]
    exact ⟨⟨p.createdBy, PRole.owner⟩, hmem, by simp [heq]⟩
  cases hf : p.members.find? (fun m => m.user = userId) with
  | none => rw [hf] at hsome; simp at hsome
  | some m =>
      refine ⟨m, rfl, ?_⟩
      have hpm : m.user = userId := by
        have := List.find?_some hf
        simpa using this
      exact h.2 m (List.mem_of_find?_eq_some hf) (hpm.trans heq)

/-- C7: project creation installs the creator as the single owner member;
adding a member (any outcome) preserves the single-owner invariant and can
only append a role-member entry; removing a member preserves the invariant;
and removing the owner entry (the creator, under the invariant) is rejected
with a 400 error and an unchanged project. -/
theorem project_single_owner :
    (∀ actor nm d c p, (createProjectRoute true actor nm d c).1 = some p →
       ownerInv p ∧ p.members = [⟨actor, PRole.owner⟩]) ∧
    (∀ p pid notifs actor adm userId ok, ownerInv p →
       ownerInv (addMemberRoute p pid notifs actor adm userId ok).1 ∧
       ((addMemberRoute p pid notifs actor adm userId ok).1.members = p.members ∨
        (addMemberRoute p pid notifs actor adm userId ok).1.members
          = p.members ++ [⟨userId, PRole.member⟩])) ∧
    (∀ p actor adm userId, ownerInv p →
       ownerInv (removeMemberRoute p actor adm userId).1) ∧
    (∀ p actor userId, ownerInv p → userId = p.createdBy →
       removeMemberRoute p actor true userId = (p, ⟨400, false⟩)) := by
  refine ⟨?_, ?_, ?_, ?_⟩
  · intro actor nm d c p hp
    unfold createProjectRoute at hp
    rw [if_neg (by simp)] at hp
    by_cases hn : nm = []
    · rw [if_pos hn] at hp
      simp at hp
    · rw [if_neg hn] at hp
      dsimp only at hp
      unfold projectPreSave at hp
      rw [if_pos ⟨rfl, by simp⟩] at hp
      have hp2 := Option.some.inj hp
      rw [← hp2]
      constructor
      · constructor
        · rfl
        · intro m hm _
          simp at hm
          rw [hm]
      · rfl
  · intro p pid notifs actor adm userId ok hinv
    unfold addMemberRoute
    by_cases hauth : adm = false ∧ projIsOwner p actor = false
    · rw [if_pos hauth]
      exact ⟨hinv, Or.inl rfl⟩
    · rw [if_neg hauth]
      by_cases hmem : projIsMember p userId
      · rw [if_pos hmem]
        exact ⟨hinv, Or.inl rfl⟩
      · rw [if_neg hmem]
        have hne : userId ≠ p.createdBy := by
          intro he
          apply hmem
          unfold projIsMember
          rw [List.any_eq_true]
          refine ⟨⟨p.createdBy, PRole.owner⟩, ownerInv_creator_mem p hinv, ?_⟩
          simp [he]
        have hps : projectPreSave false
            { p with members := p.members ++ [⟨userId, PRole.member⟩] }
            = { p with members := p.members ++ [⟨userId, PRole.member⟩] } :=
          projectPreSave_false _
        have hinv2 : ownerInv { p with members := p.members ++ [⟨userId, PRole.member⟩] } := by
          constructor
          · show (p.members ++ [(⟨userId, PRole.member⟩ : PMember)]).filter
                (fun m => m.role = PRole.owner)
              = [(⟨p.createdBy, PRole.owner⟩ : PMember)]
            rw [List.filter_append, hinv.1]
            simp [List.filter]
          · intro m hm hmu
            rw [List.mem_append] at hm
            cases hm with
            | inl hml => exact hinv.2 m hml hmu
            | inr hmr =>
                simp at hmr
                rw [hmr] at hmu
                simp at hmu
                exact absurd hmu hne
        cases ok with
        | true =>
            rw [if_pos rfl]
            dsimp only
            rw [hps]
            exact ⟨hinv2, Or.inr rfl⟩
        | false =>
            rw [if_neg (by simp)]
            dsimp only
            rw [hps]
            exact ⟨hinv2, Or.inr rfl⟩
  · intro p actor adm userId hinv
    unfold removeMemberRoute
    by_cases hauth : adm = false ∧ projIsOwner p actor = false
    · rw [if_pos hauth]
      exact hinv
    · rw [if_neg hauth]
      cases hf : p.members.find? (fun m => m.user = userId) with
      | some m =>
          dsimp only
          by_cases ho : m.role = PRole.owner
          · rw [if_pos ho]
            exact hinv
          · rw [if_neg ho]
            have hne : userId ≠ p.createdBy := by
              intro he
              obtain ⟨m2, hm2, hrole⟩ := removeTarget_ne_creator p userId hinv he
              rw [hf] at hm2
              exact ho (Option.some.inj hm2 ▸ hrole)
            dsimp only
            rw [projectPreSave_false]
            exact ownerInv_filter_ne p userId hinv hne
      | none =>
          have hne : userId ≠ p.createdBy := by
            intro he
            obtain ⟨m2, hm2, _⟩ := removeTarget_ne_creator p userId hinv he
            rw [hf] at hm2
            exact Option.noConfusion hm2
          dsimp only
          rw [projectPreSave_false]
          exact ownerInv_filter_ne p userId hinv hne
  · intro p actor userId hinv heq
    unfold removeMemberRoute
    rw [if_neg (by simp)]
    obtain ⟨m, hm, hrole⟩ := removeTarget_ne_creator p userId hinv heq
    rw [hm]
    dsimp only
    rw [if_pos hrole]

/-- Witness for C7 at concrete inputs: creating a project, adding a member,
then attempting to remove the owner. -/
theorem project_single_owner_witness :
    ownerInv ⟨['P'], [], PCat.tech, PStatus.active, 2, [⟨2, PRole.owner⟩]⟩ ∧
    ownerInv (addMemberRoute ⟨['P'], [], PCat.tech, PStatus.active, 2, [⟨2, PRole.owner⟩]⟩
        (some 1) [] 2 true 7 true).1 ∧
    removeMemberRoute ⟨['P'], [], PCat.tech, PStatus.active, 2, [⟨2, PRole.owner⟩]⟩ 2 true 2
      = (⟨['P'], [], PCat.tech, PStatus.active, 2, [⟨2, PRole.owner⟩]⟩, ⟨400, false⟩) :=
  ⟨by unfold ownerInv; exact ⟨by decide, by decide⟩,
   (project_single_owner.2.1 ⟨['P'], [], PCat.tech, PStatus.active, 2, [⟨2, PRole.owner⟩]⟩
      (some 1) [] 2 true 7 true (by unfold ownerInv; exact ⟨by decide, by decide⟩)).1,
   project_single_owner.2.2.2 ⟨['P'], [], PCat.tech, PStatus.active, 2, [⟨2, PRole.owner⟩]⟩
      2 2 (by unfold ownerInv; exact ⟨by decide, by decide⟩) rfl⟩

/-! ### Registration role assignment (C10) -/

/-- C10: POST /api/auth/register (which is mounted without any
authentication middleware, so the handler has no acting user as input) makes
the very first registered user an admin whatever role the body supplies,
and after at least one user exists it stores exactly the role supplied in
the body, defaulting to editor when absent — in particular an
unauthenticated caller may register with role admin. -/
theorem register_role_assignment (users : List RUser) (req : RegisterReq) (now : Nat)
    (hval : ¬(req.password.length < 6 ∨ req.rname = [] ∨ req.rname.length > 100))
    (hemail : users.any (fun u => u.email = req.email) = false) :
    (users = [] →
       ∃ u, (registerRoute users req now).2.1 = some u ∧ u.role = Role.admin) ∧
    (users ≠ [] →
       ∃ u, (registerRoute users req now).2.1 = some u ∧
         u.role = req.role.getD Role.editor) := by
  unfold registerRoute
  rw [if_neg hval]
  constructor
  · intro hu
    rw [if_neg (by simp [hemail])]
    refine ⟨_, rfl, ?_⟩
    dsimp only
    rw [if_pos (by simp [hu])]
  · intro hu
    rw [if_neg (by simp [hemail])]
    refine ⟨_, rfl, ?_⟩
    dsimp only
    rw [if_neg (by simp [hu])]

/-- Witness for C10: with one existing user, an unauthenticated registration
request carrying role admin yields a user stored with role admin. -/
theorem register_role_assignment_witness :
    ∃ u, (registerRoute [⟨['a'], ['A'], Role.admin, 1, some 0⟩]
        ⟨['b'], ['1', '2', '3', '4', '5', '6'], ['B'], some Role.admin⟩ 5).2.1 = some u ∧
      u.role = (some Role.admin).getD Role.editor :=
  (register_role_assignment [⟨['a'], ['A'], Role.admin, 1, some 0⟩]
      ⟨['b'], ['1', '2', '3', '4', '5', '6'], ['B'], some Role.admin⟩ 5
      (by decide) (by decide)).2 (by decide)

end Basecamp
